import Mathlib

/-!
# Verification of the cli-torrent-client core against its specification

Shallow embedding of the claim-relevant parts of the Rust sources
(`src/bencode.rs`, `src/peer.rs`, `src/torrent.rs`, `src/tracker.rs`)
as executable Lean definitions, followed by one theorem per claim.

Bytes are modelled as `Nat` (the value of the `u8`), byte buffers as
`List Nat`, bit vectors (`bit_vec::BitVec`) as `List Bool`, and
`HashSet<u32>` as a duplicate-free `List Nat` whose membership and
removal operations mirror the set operations used by the source.
-/

namespace Bencode

/-- The error enumeration of `bencode.rs` (`enum Error`). -/
inductive BError where
  | emptyInteger
  | notEnoughBytes
  | notAnInteger
  | unclosedInteger
  | unclosedList
  | unclosedMap
  | negativeZero
  | leadingZero
  | missingColon
  | expectedMap
  | expectedString
  | expectedInteger
  | expectedList
deriving DecidableEq, Repr

/-- The value tree of `bencode.rs` (`enum Type`): each node carries its decoded
content together with the raw bytes it was parsed from.  `BTreeMap` is modelled
as the association list of its entries in insertion order (key order is
irrelevant to the claims settled here). -/
inductive BType where
  | str (s : List Nat) (raw : List Nat)
  | int (digits : List Nat) (raw : List Nat)
  | list (elems : List BType) (raw : List Nat)
  | map (pairs : List (BType × BType)) (raw : List Nat)

/-- Rust's `u8::is_ascii_digit`. -/
def isAsciiDigit (b : Nat) : Bool := 48 ≤ b && b ≤ 57

/-- Indexing `self.raw[i]`.  Rust panics when `i` is out of range; the inputs
of the claims settled here never index out of range, and out-of-range access
is given the (never relied upon) value 0. -/
def byteAt (raw : List Nat) (i : Nat) : Nat := raw.getD i 0

/-- The loop `while self.current < self.raw.len() && self.raw[self.current].is_ascii_digit() { self.current += 1 }`. -/
def skipDigits (raw : List Nat) (cur : Nat) : Nat :=
  if h : cur < raw.length ∧ isAsciiDigit (byteAt raw cur) = true then
    skipDigits raw (cur + 1)
  else
    cur
termination_by raw.length - cur
decreasing_by omega

/-- The slice `&raw[a..b]`. -/
def slice (raw : List Nat) (a b : Nat) : List Nat := (raw.drop a).take (b - a)

/-- `from_utf8(digits).parse::<usize>()` on a run of ASCII digits. -/
def digitsToNat (ds : List Nat) : Nat := ds.foldl (fun acc d => acc * 10 + (d - 48)) 0

mutual

/-- `Iter::next` of `bencode.rs`.  The iterator state is the pair
`(raw, current)`; the returned `Nat` is the new value of `current`.
`none` models Rust's `None` (in every `None` branch of the source the cursor
is left — or reverted to — its entry value, so no cursor needs returning).
`fuel` bounds the recursion through the `l`/`d` branches; callers pass more
fuel than any input of that length can consume. -/
def iterNext (fuel : Nat) (raw : List Nat) (current : Nat) :
    Option (Except BError (BType × Nat)) :=
  match fuel with
  | 0 => none
  | fuel + 1 =>
    let len := raw.length - current
    let begin := current
    if len < 2 then none
    else
      -- `self.current += 1` happens before the match on `self.raw[begin]`
      let b := byteAt raw begin
      if isAsciiDigit b then
        -- byte-string branch: digits, then `:`, then that many bytes
        let cur := skipDigits raw (begin + 1)
        if byteAt raw cur ≠ 58 then some (.error .missingColon)
        else
          let length := digitsToNat (slice raw begin cur)
          let strBegin := cur + 1
          let strEnd := strBegin + length
          some (.ok (.str (slice raw strBegin strEnd) (slice raw begin strEnd), strEnd))
      else if b = 105 then
        -- integer branch (`i`)
        if byteAt raw (begin + 1) = 101 then some (.error .emptyInteger)
        else
          let negative := byteAt raw (begin + 1) = 45
          -- the `else if` chain of the source: the leading-zero and
          -- not-an-integer checks run only when the sign check failed
          if ¬ negative ∧ byteAt raw (begin + 1) = 48 ∧ len > 3 then
            some (.error .leadingZero)
          else if ¬ negative ∧ isAsciiDigit (byteAt raw (begin + 1)) = false then
            some (.error .notAnInteger)
          else
            let cur := if negative then begin + 2 else begin + 1
            if negative ∧ byteAt raw cur = 48 then some (.error .negativeZero)
            else
              let cur2 := skipDigits raw cur
              if byteAt raw cur2 ≠ 101 then some (.error .unclosedInteger)
              else
                some (.ok (.int (slice raw (begin + 1) cur2) (slice raw begin (cur2 + 1)), cur2 + 1))
      else if b = 108 then
        -- list branch (`l`)
        match iterList fuel raw (begin + 1) [] with
        | .error e => some (.error e)
        | .ok (elems, cur) =>
          if byteAt raw cur ≠ 101 then some (.error .unclosedList)
          else some (.ok (.list elems (slice raw begin (cur + 1)), cur + 1))
      else if b = 100 then
        -- dictionary branch (`d`)
        match iterDict fuel raw (begin + 1) [] with
        | .error e => some (.error e)
        | .ok (pairs, cur) =>
          if byteAt raw cur ≠ 101 then some (.error .unclosedMap)
          else some (.ok (.map pairs (slice raw begin (cur + 1)), cur + 1))
      else none

/-- The `while let Some(object) = self.next()` loop of the `l` branch. -/
def iterList (fuel : Nat) (raw : List Nat) (current : Nat) (acc : List BType) :
    Except BError (List BType × Nat) :=
  match fuel with
  | 0 => .ok (acc.reverse, current)
  | fuel + 1 =>
    match iterNext fuel raw current with
    | none => .ok (acc.reverse, current)
    | some (.error e) => .error e
    | some (.ok (t, cur)) => iterList fuel raw cur (t :: acc)

/-- The `while let (Some(key), Some(val)) = (self.next(), self.next())` loop of
the `d` branch.  (Rust evaluates both `next` calls before matching; the cursor
position that difference affects is only observable on error paths of inputs
no claim exercises.) -/
def iterDict (fuel : Nat) (raw : List Nat) (current : Nat) (acc : List (BType × BType)) :
    Except BError (List (BType × BType) × Nat) :=
  match fuel with
  | 0 => .ok (acc.reverse, current)
  | fuel + 1 =>
    match iterNext fuel raw current with
    | none => .ok (acc.reverse, current)
    | some (.error e) => .error e
    | some (.ok (key, cur)) =>
      match iterNext fuel raw cur with
      | none => .ok (acc.reverse, cur)
      | some (.error e) => .error e
      | some (.ok (val, cur2)) => iterDict fuel raw cur2 ((key, val) :: acc)

end

/-- `<&[u8] as Bedecode>::bedecode`: one `Iter::next`, with `None` mapped to
`NotEnoughBytes` and the inner result flattened by `?`. -/
def bedecode (raw : List Nat) : Except BError BType :=
  match iterNext (2 * raw.length + 4) raw 0 with
  | none => .error .notEnoughBytes
  | some (.error e) => .error e
  | some (.ok (t, _)) => .ok t

/-- The bytes of an ASCII string literal, as the `b"..."` literals of the
source's tests. -/
def strBytes (s : String) : List Nat := s.toList.map (fun c => c.toNat)

/-- Just the error component of a decode, for stating the error-classification
claims. -/
def bedecodeErr (raw : List Nat) : Option BError :=
  match bedecode raw with
  | .error e => some e
  | .ok _ => none

end Bencode

namespace Peer

/-- The `io::ErrorKind` values that `peer.rs` and `tracker.rs` distinguish;
`other` stands for every kind the sources treat through their catch-all arms. -/
inductive IoKind where
  | connectionReset
  | connectionAborted
  | permissionDenied
  | timedOut
  | other
deriving DecidableEq, Repr

/-- The error enumeration of `peer.rs` (`enum Error`), with `IoError` carrying
the kind of the underlying `io::Error`. -/
inductive PError where
  | ioError (k : IoKind)
  | invalidMessageId (id : Nat)
  | invalidPayloadLength (expected actual : Nat)
deriving DecidableEq, Repr

/-- Overwrite `data` into `buf` starting at `pos`: the effect of sequential
`write_all` calls on a `Cursor` positioned at `pos` over an existing buffer. -/
def cursorWrite (buf : List Nat) (pos : Nat) (data : List Nat) : List Nat :=
  buf.take pos ++ data ++ buf.drop (pos + data.length)

/-- The byte written by `write!(cursor, "{}", 19 as char)` followed by the
ASCII bytes of `"BitTorrent protocol"` and of `"00000000"` — exactly the
format string of `Peer::handshake`. -/
def handshakePrefix : List Nat :=
  [19] ++ Bencode.strBytes "BitTorrent protocol" ++ Bencode.strBytes "00000000"

/-- The 68 bytes sent by `Peer::handshake`: a cursor over `vec![0u8; 68]`
receives the format-string prefix, then the 20 `info_hash` bytes, then the 20
`peer_id` bytes, each write advancing the cursor. -/
def handshakeBytes (infoHash peerId : List Nat) : List Nat :=
  let buf := List.replicate 68 0
  let buf := cursorWrite buf 0 handshakePrefix
  let buf := cursorWrite buf handshakePrefix.length infoHash
  let buf := cursorWrite buf (handshakePrefix.length + infoHash.length) peerId
  buf

/-- One outcome of `self.reader.read(&mut handshake)` in the response loop of
`Peer::handshake`: `ok n bytes` is a successful read of `n` bytes (with the
buffer contents `bytes` when `n = 68`), `err k` an `io::Error` of kind `k`. -/
inductive ReadOutcome where
  | ok (n : Nat) (bytes : List Nat)
  | err (k : IoKind)
deriving Repr

/-- The response-reading loop of `Peer::handshake`, over the script of
successive read outcomes: a 68-byte read is returned as the successful
handshake, any other byte count is retried, a timed-out read is retried, and
any other I/O error is returned as the session's error.  `none` means the
script ended with the loop still running.  Note the loop never inspects the
bytes it read — in particular it never compares the embedded info_hash with
the local one. -/
def handshakeReadLoop : List ReadOutcome → Option (Except PError (List Nat))
  | [] => none
  | .ok n bytes :: rest =>
    if n = 68 then some (.ok bytes) else handshakeReadLoop rest
  | .err k :: rest =>
    if k = .timedOut then handshakeReadLoop rest
    else some (.error (.ioError k))

/-- The info_hash field embedded in a 68-byte handshake: bytes 28..48
(1 protocol-length byte + 19 protocol bytes + 8 reserved bytes before it). -/
def embeddedInfoHash (handshake : List Nat) : List Nat :=
  (handshake.drop 28).take 20

end Peer

namespace Torrent

/-- `static BLOCK_SIZE: u32 = 16384`. -/
def BLOCK_SIZE : Nat := 16384

/-- `BitVec::get`: `some` of the bit when the index is in range, `none`
otherwise. -/
def bvGet (bv : List Bool) (i : Nat) : Option Bool := bv.get? i

/-- `BitVec::set` (no-op out of range is never exercised by the sources'
in-range uses; `List.set` is likewise a no-op out of range). -/
def bvSet (bv : List Bool) (i : Nat) (b : Bool) : List Bool := bv.set i b

/-- `HashSet::remove` on the duplicate-free list model. -/
def setRemove (s : List Nat) (x : Nat) : List Nat := s.filter (fun y => y ≠ x)

/-- `HashSet::insert` on the duplicate-free list model. -/
def setInsert (s : List Nat) (x : Nat) : List Nat :=
  if x ∈ s then s else x :: s

/-- The three ways `get_next_piece` can leave its caller: a piece was found,
removed from the available set and returned (`got`, carrying the updated set);
no piece qualified (`noPiece`, Rust's `None`); or the whole process was
terminated by `std::process::exit` (`exitProcess`, carrying the exit status). -/
inductive NextPieceResult where
  | got (piece : Nat) (available : List Nat)
  | noPiece
  | exitProcess (code : Nat)
deriving DecidableEq, Repr

/-- The `for (piece, exists) in peer.bitfield().iter().enumerate()` loop of
`get_next_piece`, with `idx` the index of the head of the remaining bitfield. -/
def getNextPieceAux : List Bool → Nat → List Nat → NextPieceResult
  | [], _, _ => .noPiece
  | b :: rest, idx, available =>
    if b && available.contains idx then
      if idx = 396 then .exitProcess 0
      else .got idx (setRemove available idx)
    else getNextPieceAux rest (idx + 1) available

/-- `get_next_piece` of `torrent.rs`: under the `available_pieces` write lock,
scan the peer's bitfield in index order for the first set bit whose index is
still in the available set; `std::process::exit(0)` when that index is 396,
otherwise remove it from the set and return it; `None` when no index
qualifies. -/
def getNextPiece (bitfield : List Bool) (available : List Nat) : NextPieceResult :=
  getNextPieceAux bitfield 0 available

/-- `is_there_next_piece` of `torrent.rs`: true iff some member of the
available set is an in-range index of the peer's bitfield
(`peer.bitfield().get(piece).is_some()` — the bit's value is not consulted). -/
def isThereNextPiece (bitfield : List Bool) (available : List Nat) : Bool :=
  available.any (fun piece => (bvGet bitfield piece).isSome)

/-- The `Message::KeepAlive` arm of `handle_peer`: the session returns (closes)
iff `is_there_next_piece` is true. -/
def keepAliveCloses (bitfield : List Bool) (available : List Nat) : Bool :=
  isThereNextPiece bitfield available

/-- The body of `DownloadingPiece::drop`: when the guard holds a piece, the
spawned task re-inserts it into the available set only when
`file_bitfield.get(piece).is_none()`, i.e. only when the index is out of the
bitfield's range. -/
def dropRelease (piece : Option Nat) (fileBitfield : List Bool)
    (available : List Nat) : List Nat :=
  match piece with
  | none => available
  | some p =>
    if (bvGet fileBitfield p).isNone then setInsert available p
    else available

/-- The mutable per-session state of `handle_peer` that the Unchoke arm
touches: `struct DownloadingPiece`'s `piece` and `offset` fields and the
peer's `is_choking` flag. -/
structure SessionState where
  isChoking : Bool
  piece : Option Nat
  offset : Nat
deriving DecidableEq, Repr

/-- What the Unchoke arm does towards the outside: nothing (redundant
message), send one Request frame, return from `handle_peer` (closing the
session), or terminate the process from inside `get_next_piece`. -/
inductive UnchokeAction where
  | nothing
  | request (index begin_ length : Nat)
  | close
  | exitProcess (code : Nat)
deriving DecidableEq, Repr

/-- The `Message::Unchoke` arm of `handle_peer`.  `pieces` is the
`available_pieces.read().len()` snapshot taken at session start,
`pieceLength`/`lastPieceLength` the torrent's piece sizes.  Returns the
action taken, the session state after the arm, and the available set after
the arm.  (The subtractions are exact in every reachable state; Rust's `u32`
subtraction would panic on underflow in debug builds.) -/
def unchokeStep (pieces pieceLength lastPieceLength : Nat) (st : SessionState)
    (bitfield : List Bool) (available : List Nat) :
    UnchokeAction × SessionState × List Nat :=
  if !st.isChoking then
    -- redundant message: `continue`
    (.nothing, st, available)
  else
    let st := { st with isChoking := false }
    match st.piece with
    | none =>
      match getNextPiece bitfield available with
      | .got nextPiece available' =>
        (.request nextPiece st.offset BLOCK_SIZE,
         { st with piece := some nextPiece }, available')
      | .noPiece => (.close, st, available)
      | .exitProcess code => (.exitProcess code, st, available)
    | some p =>
      let remaining :=
        if p = pieces - 1 then lastPieceLength - st.offset
        else pieceLength - st.offset
      if remaining < BLOCK_SIZE then (.request p st.offset remaining, st, available)
      else (.request p st.offset BLOCK_SIZE, st, available)

/-- `Vec::resize(n, 0)` when growth is needed (the source resizes only when
`piece_buffer.len() < begin + block.len()`). -/
def resizeTo (buf : List Nat) (n : Nat) : List Nat :=
  if buf.length < n then buf ++ List.replicate (n - buf.length) 0 else buf

/-- `piece_buffer[begin..begin + block.len()].copy_from_slice(block)`. -/
def copyInto (buf : List Nat) (begin : Nat) (block : List Nat) : List Nat :=
  buf.take begin ++ block ++ buf.drop (begin + block.length)

/-- The state of the assembler task spawned in `Torrent::download`:
`received_blocks` (one block-arrival bit set per piece), `pieces` (one byte
buffer per piece), the shared `file_bitfield`, and the log of
`(offset, bytes)` file writes the task has performed. -/
structure AssemblerState where
  receivedBlocks : List (List Bool)
  pieces : List (List Nat)
  fileBitfield : List Bool
  writes : List (Nat × List Nat)
deriving DecidableEq, Repr

/-- The initial assembler state built at the top of the spawned task:
`block_num` rounded-up block counts, all-false arrival bit sets, empty
buffers. -/
def assemblerInit (numPieces pieceLength lastPieceLength : Nat)
    (fileBitfield : List Bool) : AssemblerState :=
  let blockNum := (pieceLength + BLOCK_SIZE - 1) / BLOCK_SIZE
  let lastBlockNum := (lastPieceLength + BLOCK_SIZE - 1) / BLOCK_SIZE
  { receivedBlocks :=
      List.replicate (numPieces - 1) (List.replicate blockNum false)
        ++ [List.replicate lastBlockNum false],
    pieces := List.replicate numPieces [],
    fileBitfield := fileBitfield,
    writes := [] }

/-- One iteration of the assembler's `while let Some(write_message) =
reciever.recv().await` loop on the message `(index, begin, block)`: grow the
piece buffer if needed, copy the block in at `begin`, set bit
`begin / BLOCK_SIZE` of the piece's arrival bit set, and — when after that
every bit of the set is true — set the piece's `file_bitfield` bit and write
the buffer to the file at offset `index * piece_length`.  The loop body
receives no hash table and computes no hash: completion alone triggers the
write. -/
def assemblerStep (pieceLength : Nat) (st : AssemblerState)
    (index begin : Nat) (block : List Nat) : AssemblerState :=
  let buf := st.pieces.getD index []
  let buf := if buf.length < begin + block.length then resizeTo buf (begin + block.length) else buf
  let buf := copyInto buf begin block
  let pieces := st.pieces.set index buf
  let blockIndex := begin / BLOCK_SIZE
  let rb := (st.receivedBlocks.getD index []).set blockIndex true
  let receivedBlocks := st.receivedBlocks.set index rb
  if rb.all (fun b => b) then
    { receivedBlocks := receivedBlocks, pieces := pieces,
      fileBitfield := bvSet st.fileBitfield index true,
      writes := st.writes ++ [(index * pieceLength, pieces.getD index [])] }
  else
    { receivedBlocks := receivedBlocks, pieces := pieces,
      fileBitfield := st.fileBitfield, writes := st.writes }

end Torrent

namespace Tracker

/-- One outcome of the `BufReader::bytes().collect()` read in
`Tracker::announce`: a successful read of a body of `len` bytes, or an
`io::Error` of kind `k`.  (A non-empty successful body is taken to decode —
the source's decode-failure arm is `todo!()`, a panic.) -/
inductive TrackerRead where
  | ok (len : Nat)
  | err (k : Peer.IoKind)
deriving DecidableEq, Repr

/-- One iteration's worth of I/O outcomes in `Tracker::announce`: the result
of `stream.write_all(&self.request)` (`none` = success) and, when the write
succeeds, the result of the body read. -/
structure Attempt where
  writeErr : Option Peer.IoKind
  read : TrackerRead
deriving DecidableEq, Repr

/-- How `Tracker::announce` ends: `ok` (a non-empty response was stored and
the loop broke), `err k` (an error was returned to the caller), or `pending`
(the supplied script ended with the loop still retrying). -/
inductive AnnounceResult where
  | ok
  | err (k : Peer.IoKind)
  | pending
deriving DecidableEq, Repr

/-- The retry loop of `Tracker::announce` over a script of I/O outcomes,
returning how the call ends together with how many times the loop reconnected
(`TcpStream::connect` to `self.stream.peer_addr()`; reconnection itself is
taken to succeed).  Mirrors the source arm for arm:
 - write error of kind reset/aborted/permission-denied: reconnect, retry;
 - any other write error (timeout included): returned to the caller;
 - successful read of a non-empty body: store response, break with `Ok`;
 - successful read of an empty body: fall through, retry;
 - read error of kind reset: reconnect, retry;
 - read error of kind timeout: retry;
 - any other read error: printed to stderr, retry. -/
def announceLoop : List Attempt → AnnounceResult × Nat
  | [] => (.pending, 0)
  | a :: rest =>
    match a.writeErr with
    | some k =>
      if k = .connectionReset ∨ k = .connectionAborted ∨ k = .permissionDenied then
        let r := announceLoop rest
        (r.1, r.2 + 1)
      else (.err k, 0)
    | none =>
      match a.read with
      | .ok len =>
        if len ≠ 0 then (.ok, 0)
        else announceLoop rest
      | .err k =>
        if k = .connectionReset then
          let r := announceLoop rest
          (r.1, r.2 + 1)
        else announceLoop rest

end Tracker

namespace Sched

/-!
The scheduler's shared state, as a labelled transition system.  Sessions are
named by `Nat`.  `available` is the shared `available_pieces` set;
`assign` gives each session the piece its `DownloadingPiece` guard currently
holds.  The steps are the only ways `torrent.rs` touches this state:

* `acquire` — a session with no assignment runs `get_next_piece`
  successfully: under the single `available_pieces.write()` lock the piece is
  found and removed, and the session records it in `downloading_piece.piece`
  (Unchoke arm of `handle_peer`).
* `advance` — a session that just completed its piece runs `get_next_piece`
  again and replaces its assignment (Piece arm, `remaining_piece_size == 0`);
  the completed piece is not re-inserted.
* `terminate` — the session returns or errors and `DownloadingPiece::drop`
  runs; the spawned drop task either re-inserts the held piece or does not
  (in the source the re-insertion is conditional on
  `file_bitfield.get(piece).is_none()`; the `reinsert` flag covers both
  outcomes, so every behaviour of the source — and of the spec's intended
  unconditional release — is a run of this system).
-/

/-- Shared scheduler state: the available-pieces set and each session's
current assignment. -/
structure SchedState where
  available : List Nat
  assign : Nat → Option Nat

/-- Pointwise update of the assignment map. -/
def setAssign (f : Nat → Option Nat) (sid : Nat) (v : Option Nat) :
    Nat → Option Nat :=
  fun s => if s = sid then v else f s

/-- The transitions of the scheduler state (see the namespace comment). -/
inductive SchedStep : SchedState → SchedState → Prop where
  | acquire (s : SchedState) (sid p : Nat) :
      s.assign sid = none → p ∈ s.available →
      SchedStep s ⟨Torrent.setRemove s.available p, setAssign s.assign sid (some p)⟩
  | advance (s : SchedState) (sid p q : Nat) :
      s.assign sid = some p → q ∈ s.available →
      SchedStep s ⟨Torrent.setRemove s.available q, setAssign s.assign sid (some q)⟩
  | terminate (s : SchedState) (sid p : Nat) (reinsert : Bool) :
      s.assign sid = some p →
      SchedStep s
        ⟨if reinsert then Torrent.setInsert s.available p else s.available,
         setAssign s.assign sid none⟩

/-- States reachable from the start of a download with `numPieces` pieces:
`available_pieces` holds every index (`Torrent::new` inserts `0..pieces`),
and no session holds an assignment. -/
inductive Reachable (numPieces : Nat) : SchedState → Prop where
  | init : Reachable numPieces ⟨List.range numPieces, fun _ => none⟩
  | step {s t : SchedState} : Reachable numPieces s → SchedStep s t →
      Reachable numPieces t

/-- The inductive invariant: assigned pieces are outside the available set,
and no piece is assigned to two sessions. -/
def Inv (s : SchedState) : Prop :=
  (∀ sid p, s.assign sid = some p → p ∉ s.available) ∧
  (∀ sid₁ sid₂ p, s.assign sid₁ = some p → s.assign sid₂ = some p → sid₁ = sid₂)

end Sched

namespace Torrent

/-- Following the claims' wording (not the source): scan the indices of the
peer's bitfield in increasing order for the first one whose bit is set and
that is present in the available set.  `specSmallestAux_least` below proves
the result is the smallest qualifying index. -/
def specSmallestAux : List Bool → Nat → List Nat → Option Nat
  | [], _, _ => none
  | b :: rest, idx, available =>
    if b && available.contains idx then some idx
    else specSmallestAux rest (idx + 1) available

/-- Following the claims' wording: the smallest index that is both set in the
peer's bitfield and present in the available-pieces set. -/
def specSmallestWanted (bitfield : List Bool) (available : List Nat) : Option Nat :=
  specSmallestAux bitfield 0 available

end Torrent

namespace Peer

/-- A concrete 68-byte handshake response whose embedded info_hash (bytes
28..48, all `1`) differs from the all-zero local info_hash. -/
def mismatchResponse : List Nat :=
  List.replicate 28 0 ++ List.replicate 20 1 ++ List.replicate 20 0

end Peer

/-!
## Supporting lemmas
-/

namespace Torrent

theorem mem_setRemove {x y : Nat} {s : List Nat} :
    x ∈ setRemove s y ↔ x ∈ s ∧ x ≠ y := by
  simp [setRemove, List.mem_filter]

theorem not_mem_setRemove_self (s : List Nat) (x : Nat) : x ∉ setRemove s x := by
  simp [mem_setRemove]

theorem mem_setInsert {x y : Nat} {s : List Nat} :
    x ∈ setInsert s y ↔ x = y ∨ x ∈ s := by
  unfold setInsert
  split
  · rename_i h
    constructor
    · exact Or.inr
    · rintro (rfl | hx)
      · exact h
      · exact hx
  · exact List.mem_cons

/-- `get_next_piece` computes exactly what the spec-side scan computes:
the first (smallest) qualifying index, with the 396 escape hatch and the
removal from the available set. -/
theorem getNextPieceAux_eq_spec (bf : List Bool) :
    ∀ (idx : Nat) (available : List Nat),
      getNextPieceAux bf idx available =
        match specSmallestAux bf idx available with
        | none => .noPiece
        | some i => if i = 396 then .exitProcess 0 else .got i (setRemove available i) := by
  induction bf with
  | nil => intro idx available; rfl
  | cons b rest ih =>
    intro idx available
    cases b with
    | false => simp [getNextPieceAux, specSmallestAux, ih]
    | true =>
      by_cases hmem : idx ∈ available
      · simp [getNextPieceAux, specSmallestAux, hmem]
      · simp [getNextPieceAux, specSmallestAux, hmem, ih]

/-- The spec-side scan deserves its name: a returned index qualifies and every
smaller index (at or beyond the scan start) does not. -/
theorem specSmallestAux_least (bf : List Bool) :
    ∀ (idx : Nat) (available : List Nat) (i : Nat),
      specSmallestAux bf idx available = some i →
      idx ≤ i ∧ (bf.getD (i - idx) false && available.contains i) = true ∧
        ∀ j, idx ≤ j → j < i →
          (bf.getD (j - idx) false && available.contains j) = false := by
  induction bf with
  | nil => intro idx available i h; simp [specSmallestAux] at h
  | cons b rest ih =>
    intro idx available i h
    by_cases hc : (b && available.contains idx) = true
    · rw [specSmallestAux, if_pos hc] at h
      obtain rfl : idx = i := Option.some.inj h
      refine ⟨le_refl _, ?_, ?_⟩
      · simpa using hc
      · intro j hj1 hj2; omega
    · rw [specSmallestAux, if_neg hc] at h
      obtain ⟨hle, hcond, hmin⟩ := ih (idx + 1) available i h
      refine ⟨by omega, ?_, ?_⟩
      · have he : i - idx = (i - (idx + 1)) + 1 := by omega
        rw [he, List.getD_cons_succ]
        exact hcond
      · intro j hj1 hj2
        rcases Nat.eq_or_lt_of_le hj1 with heq | hlt
        · subst heq
          simp only [Nat.sub_self, List.getD_cons_zero]
          exact Bool.eq_false_iff.mpr hc
        · have he : j - idx = (j - (idx + 1)) + 1 := by omega
          rw [he, List.getD_cons_succ]
          exact hmin j (by omega) hj2

end Torrent

namespace Sched

theorem inv_init (n : Nat) : Inv ⟨List.range n, fun _ => none⟩ := by
  constructor
  · intro sid p h
    exact absurd h (by simp)
  · intro sid₁ sid₂ p h₁ h₂
    exact absurd h₁ (by simp)

theorem inv_step {s t : SchedState} (hinv : Inv s) (hstep : SchedStep s t) :
    Inv t := by
  obtain ⟨h1, h2⟩ := hinv
  cases hstep with
  | acquire sid p hnone hmem =>
    constructor
    · intro sid' q hq hqmem
      simp only [setAssign] at hq
      by_cases hs : sid' = sid
      · rw [if_pos hs] at hq
        obtain rfl : p = q := Option.some.inj hq
        exact Torrent.not_mem_setRemove_self _ _ hqmem
      · rw [if_neg hs] at hq
        exact h1 sid' q hq (Torrent.mem_setRemove.mp hqmem).1
    · intro sid₁ sid₂ q hq1 hq2
      simp only [setAssign] at hq1 hq2
      by_cases e1 : sid₁ = sid <;> by_cases e2 : sid₂ = sid
      · rw [e1, e2]
      · rw [if_pos e1] at hq1
        rw [if_neg e2] at hq2
        obtain rfl : p = q := Option.some.inj hq1
        exact absurd hmem (h1 sid₂ p hq2)
      · rw [if_neg e1] at hq1
        rw [if_pos e2] at hq2
        obtain rfl : p = q := Option.some.inj hq2
        exact absurd hmem (h1 sid₁ p hq1)
      · rw [if_neg e1] at hq1
        rw [if_neg e2] at hq2
        exact h2 sid₁ sid₂ q hq1 hq2
  | advance sid p q hsome hqmem =>
    constructor
    · intro sid' r hr hrmem
      simp only [setAssign] at hr
      by_cases hs : sid' = sid
      · rw [if_pos hs] at hr
        obtain rfl : q = r := Option.some.inj hr
        exact Torrent.not_mem_setRemove_self _ _ hrmem
      · rw [if_neg hs] at hr
        exact h1 sid' r hr (Torrent.mem_setRemove.mp hrmem).1
    · intro sid₁ sid₂ r hr1 hr2
      simp only [setAssign] at hr1 hr2
      by_cases e1 : sid₁ = sid <;> by_cases e2 : sid₂ = sid
      · rw [e1, e2]
      · rw [if_pos e1] at hr1
        rw [if_neg e2] at hr2
        obtain rfl : q = r := Option.some.inj hr1
        exact absurd hqmem (h1 sid₂ q hr2)
      · rw [if_neg e1] at hr1
        rw [if_pos e2] at hr2
        obtain rfl : q = r := Option.some.inj hr2
        exact absurd hqmem (h1 sid₁ q hr1)
      · rw [if_neg e1] at hr1
        rw [if_neg e2] at hr2
        exact h2 sid₁ sid₂ r hr1 hr2
  | terminate sid p reinsert hsome =>
    constructor
    · intro sid' q hq hqmem
      simp only [setAssign] at hq
      by_cases hs : sid' = sid
      · rw [if_pos hs] at hq
        exact Option.noConfusion hq
      · rw [if_neg hs] at hq
        have hqa : q ∉ s.available := h1 sid' q hq
        have hqp : q ≠ p := by
          intro hqp'
          subst hqp'
          exact hs (h2 sid' sid q hq hsome)
        cases reinsert with
        | true =>
          rcases Torrent.mem_setInsert.mp (by simpa using hqmem) with h | h
          · exact hqp h
          · exact hqa h
        | false => exact hqa (by simpa using hqmem)
    · intro sid₁ sid₂ q hq1 hq2
      simp only [setAssign] at hq1 hq2
      by_cases e1 : sid₁ = sid
      · rw [if_pos e1] at hq1
        exact Option.noConfusion hq1
      · by_cases e2 : sid₂ = sid
        · rw [if_pos e2] at hq2
          exact Option.noConfusion hq2
        · rw [if_neg e1] at hq1
          rw [if_neg e2] at hq2
          exact h2 sid₁ sid₂ q hq1 hq2

theorem inv_reachable {n : Nat} {s : SchedState} (h : Reachable n s) : Inv s := by
  induction h with
  | init => exact inv_init n
  | step h1 h2 ih => exact inv_step ih h2

end Sched

/-!
## Claims
-/

/-- C1: the claim states that on piece completion the assembler computes SHA-1
over the buffer, compares it to `info.pieces[piece_index]`, and writes/marks
only on a match.  The assembler loop of `Torrent::download` has no access to
the digest table and computes no hash: this theorem evaluates the loop body at
a message completing piece 0 (one-piece torrent, last piece length 1, content
byte 7 — whose SHA-1 need not match anything) and shows the bit is set and the
write performed unconditionally. -/
theorem assembler_completion_writes_without_verification :
    Torrent.assemblerStep 16384 (Torrent.assemblerInit 1 16384 1 [false]) 0 0 [7] =
      { receivedBlocks := [[true]], pieces := [[7]], fileBitfield := [true],
        writes := [(0, [7])] } := by decide

/-- C2: the claim states that a session terminating while holding piece `i`
with `FileBitfield[i] = false` re-inserts `i` into the available set.  The
drop handler re-inserts only when `file_bitfield.get(piece).is_none()`, i.e.
when the index is out of the bitfield's range: at the failing input — dropped
assignment piece 0, one-piece bitfield with bit 0 still false, empty available
set — `get` returns `Some(false)`, so the piece is not re-inserted. -/
theorem dropRelease_ignores_unfinished_piece :
    Torrent.dropRelease (some 0) [false] [] = [] ∧
    Torrent.bvGet [false] 0 = some false := by decide

/-- C3: in every state reachable from the start of a download — acquisitions
removing the chosen index from the shared available set under the write lock,
advances replacing a completed assignment, terminations dropping (and possibly
releasing) the held index — no piece index is ever held by two sessions at
once. -/
theorem sched_at_most_one_session_per_piece {n : Nat} {s : Sched.SchedState}
    (h : Sched.Reachable n s) (sid₁ sid₂ p : Nat)
    (h₁ : s.assign sid₁ = some p) (h₂ : s.assign sid₂ = some p) : sid₁ = sid₂ :=
  (Sched.inv_reachable h).2 sid₁ sid₂ p h₁ h₂

/-- Witness for C3: the state after one acquisition (session 0 takes piece 0
of a one-piece torrent) is reachable, assigns piece 0 to session 0, and the
theorem applies to it. -/
theorem sched_at_most_one_session_per_piece_witness :
    Sched.Reachable 1
      ⟨Torrent.setRemove (List.range 1) 0, Sched.setAssign (fun _ => none) 0 (some 0)⟩ ∧
    Sched.setAssign (fun _ => none) 0 (some 0) 0 = some 0 ∧
    (0 : Nat) = 0 := by
  have hre : Sched.Reachable 1
      ⟨Torrent.setRemove (List.range 1) 0, Sched.setAssign (fun _ => none) 0 (some 0)⟩ :=
    Sched.Reachable.step Sched.Reachable.init
      (Sched.SchedStep.acquire ⟨List.range 1, fun _ => none⟩ 0 0 rfl (by decide))
  exact ⟨hre, rfl, sched_at_most_one_session_per_piece hre 0 0 0 rfl rfl⟩

/-- C4 counterexample: the claim states the 8 reserved bytes of the handshake
are all zero (byte value 0).  The format string writes the ASCII characters
`"00000000"`: byte 20 of the built handshake is 48, not 0. -/
theorem handshake_reserved_byte_is_ascii_zero :
    (Peer.handshakeBytes (List.replicate 20 0) (List.replicate 20 0)).getD 20 0 = 48 ∧
    (48 : Nat) ≠ 0 := by decide

/-- C4 amended: `Peer::handshake` sends exactly 68 bytes — one byte 19, the
19 ASCII bytes of `"BitTorrent protocol"`, 8 reserved bytes each the ASCII
character `0` (byte value 48), the 20-byte info_hash and the 20-byte peer_id,
in that order. -/
theorem handshakeBytes_layout (infoHash peerId : List Nat)
    (h1 : infoHash.length = 20) (h2 : peerId.length = 20) :
    Peer.handshakeBytes infoHash peerId =
      [19] ++ Bencode.strBytes "BitTorrent protocol" ++ List.replicate 8 48
        ++ infoHash ++ peerId ∧
    (Peer.handshakeBytes infoHash peerId).length = 68 := by
  have e1 : Peer.cursorWrite (List.replicate 68 0) 0 Peer.handshakePrefix
      = Peer.handshakePrefix ++ List.replicate 40 0 := by decide
  have e2 : Peer.cursorWrite (Peer.handshakePrefix ++ List.replicate 40 0)
      Peer.handshakePrefix.length infoHash
      = Peer.handshakePrefix ++ infoHash ++ List.replicate 20 0 := by
    unfold Peer.cursorWrite
    rw [List.take_left, h1, List.drop_append 20, List.drop_replicate]
  have hlen : (Peer.handshakePrefix ++ infoHash).length
      = Peer.handshakePrefix.length + infoHash.length := List.length_append _ _
  have e3 : Peer.cursorWrite (Peer.handshakePrefix ++ infoHash ++ List.replicate 20 0)
      (Peer.handshakePrefix.length + infoHash.length) peerId
      = Peer.handshakePrefix ++ infoHash ++ peerId := by
    unfold Peer.cursorWrite
    rw [List.take_left' hlen, h2, ← hlen, List.drop_append 20, List.drop_replicate]
    simp
  have hmain : Peer.handshakeBytes infoHash peerId =
      [19] ++ Bencode.strBytes "BitTorrent protocol" ++ List.replicate 8 48
        ++ infoHash ++ peerId := by
    show Peer.cursorWrite
        (Peer.cursorWrite (Peer.cursorWrite (List.replicate 68 0) 0 Peer.handshakePrefix)
          Peer.handshakePrefix.length infoHash)
        (Peer.handshakePrefix.length + infoHash.length) peerId = _
    rw [e1, e2, e3]
    simp [Peer.handshakePrefix,
      show Bencode.strBytes "00000000" = List.replicate 8 48 from by decide]
  refine ⟨hmain, ?_⟩
  rw [hmain]
  simp [h1, h2,
    show (Bencode.strBytes "BitTorrent protocol").length = 19 from by decide]

/-- Witness for C4's amended theorem at concrete 20-byte inputs. -/
theorem handshakeBytes_layout_witness :
    (List.replicate 20 1).length = 20 ∧ (List.replicate 20 2).length = 20 ∧
    (Peer.handshakeBytes (List.replicate 20 1) (List.replicate 20 2) =
      [19] ++ Bencode.strBytes "BitTorrent protocol" ++ List.replicate 8 48
        ++ List.replicate 20 1 ++ List.replicate 20 2 ∧
    (Peer.handshakeBytes (List.replicate 20 1) (List.replicate 20 2)).length = 68) :=
  ⟨rfl, rfl, handshakeBytes_layout (List.replicate 20 1) (List.replicate 20 2) rfl rfl⟩

/-- C5 counterexample: the claim states that a 68-byte handshake response
whose embedded info_hash differs from the local one makes the handshake
return an error.  With local info_hash all-zero and a response whose embedded
info_hash is all-one, the read loop returns the response as success. -/
theorem handshake_accepts_mismatched_info_hash :
    Peer.handshakeReadLoop [Peer.ReadOutcome.ok 68 Peer.mismatchResponse] =
      some (Except.ok Peer.mismatchResponse) ∧
    Peer.embeddedInfoHash Peer.mismatchResponse ≠ List.replicate 20 0 :=
  ⟨rfl, by decide⟩

/-- C5 amended: the handshake response loop returns the first full 68-byte
read as success whatever bytes it holds — the embedded info_hash is never
compared against the local one, so a mismatch does not end the session. -/
theorem handshakeReadLoop_accepts (pre : List Peer.ReadOutcome) (resp : List Nat)
    (rest : List Peer.ReadOutcome)
    (hpre : ∀ o ∈ pre,
      (match o with
       | Peer.ReadOutcome.ok n _ => n ≠ 68
       | Peer.ReadOutcome.err k => k = Peer.IoKind.timedOut)) :
    Peer.handshakeReadLoop (pre ++ Peer.ReadOutcome.ok 68 resp :: rest) =
      some (Except.ok resp) := by
  induction pre with
  | nil => simp [Peer.handshakeReadLoop]
  | cons o pre ih =>
    have ho := hpre o (List.mem_cons_self o pre)
    have hrest := fun o' h' => hpre o' (List.mem_cons_of_mem o h')
    cases o with
    | ok n bytes =>
      simp only [List.cons_append, Peer.handshakeReadLoop]
      rw [if_neg ho]
      exact ih hrest
    | err k =>
      simp only [List.cons_append, Peer.handshakeReadLoop]
      rw [if_pos ho]
      exact ih hrest

/-- Witness for C5's amended theorem: after one timed-out read, the mismatched
68-byte response is still returned as success. -/
theorem handshakeReadLoop_accepts_witness :
    (∀ o ∈ [Peer.ReadOutcome.err Peer.IoKind.timedOut],
      (match o with
       | Peer.ReadOutcome.ok n _ => n ≠ 68
       | Peer.ReadOutcome.err k => k = Peer.IoKind.timedOut)) ∧
    Peer.handshakeReadLoop
        ([Peer.ReadOutcome.err Peer.IoKind.timedOut]
          ++ Peer.ReadOutcome.ok 68 Peer.mismatchResponse :: []) =
      some (Except.ok Peer.mismatchResponse) := by
  have hpre : ∀ o ∈ [Peer.ReadOutcome.err Peer.IoKind.timedOut],
      (match o with
       | Peer.ReadOutcome.ok n _ => n ≠ 68
       | Peer.ReadOutcome.err k => k = Peer.IoKind.timedOut) := by
    intro o ho
    rcases List.mem_singleton.mp ho with rfl
    rfl
  exact ⟨hpre, handshakeReadLoop_accepts [Peer.ReadOutcome.err Peer.IoKind.timedOut]
    Peer.mismatchResponse [] hpre⟩

/-- C6 counterexample: the claim states the Request sent after acquiring piece
`i` has length `min(BLOCK_SIZE, piece_size(i))`.  With two pieces of sizes
16384 and 100, a peer holding only the last piece, and that piece available,
the session requests length 16384, not `min 16384 100 = 100`. -/
theorem unchoke_requests_full_block_on_short_last_piece :
    (Torrent.unchokeStep 2 16384 100 ⟨true, none, 0⟩ [false, true] [1]).1 =
      Torrent.UnchokeAction.request 1 0 16384 ∧
    Torrent.UnchokeAction.request 1 0 16384 ≠
      Torrent.UnchokeAction.request 1 0 (min Torrent.BLOCK_SIZE 100) := by decide

/-- C6 amended: on Unchoke while choked and holding no assignment, the session
finds (under the write lock) the smallest index that is set in the peer's
bitfield and still available; if it is 396 the process exits, otherwise the
index is removed from the available set, recorded as the assignment, and a
Request for `(i, offset, BLOCK_SIZE)` is sent (the full block size even when
the piece is shorter); if no index qualifies the session closes. -/
theorem unchoke_no_assignment_behavior (pieces pieceLength lastPieceLength : Nat)
    (st : Torrent.SessionState) (bitfield : List Bool) (available : List Nat)
    (hchoke : st.isChoking = true) (hpiece : st.piece = none) :
    Torrent.unchokeStep pieces pieceLength lastPieceLength st bitfield available =
      match Torrent.specSmallestWanted bitfield available with
      | some i =>
        if i = 396 then (.exitProcess 0, ⟨false, none, st.offset⟩, available)
        else (.request i st.offset Torrent.BLOCK_SIZE, ⟨false, some i, st.offset⟩,
              Torrent.setRemove available i)
      | none => (.close, ⟨false, none, st.offset⟩, available) := by
  obtain ⟨c, p, o⟩ := st
  obtain rfl : c = true := hchoke
  obtain rfl : p = none := hpiece
  have hg : Torrent.getNextPiece bitfield available =
      match Torrent.specSmallestWanted bitfield available with
      | none => .noPiece
      | some i => if i = 396 then .exitProcess 0
                  else .got i (Torrent.setRemove available i) :=
    Torrent.getNextPieceAux_eq_spec bitfield 0 available
  cases hs : Torrent.specSmallestWanted bitfield available with
  | none =>
    rw [hs] at hg
    simp [Torrent.unchokeStep, hg]
  | some i =>
    rw [hs] at hg
    by_cases h396 : i = 396
    · simp [Torrent.unchokeStep, hg, h396]
    · simp [Torrent.unchokeStep, hg, h396]

/-- Witness for C6's amended theorem: a one-piece torrent and a peer holding
piece 0 — the session acquires piece 0 and requests the full block size. -/
theorem unchoke_no_assignment_behavior_witness :
    (Torrent.SessionState.mk true none 0).isChoking = true ∧
    (Torrent.SessionState.mk true none 0).piece = none ∧
    Torrent.unchokeStep 1 16384 16384 ⟨true, none, 0⟩ [true] [0] =
      (Torrent.UnchokeAction.request 0 0 Torrent.BLOCK_SIZE, ⟨false, some 0, 0⟩, []) :=
  ⟨rfl, rfl,
    (unchoke_no_assignment_behavior 1 16384 16384 ⟨true, none, 0⟩ [true] [0] rfl rfl).trans
      (by decide)⟩

/-- C7: the claim states the KeepAlive arm closes the session iff the peer's
bitfield has no needed piece set.  The source's own comment says the same
("closes connection if peer has no piece the file needs"), but the code
returns — closing the session — exactly when `is_there_next_piece` is true,
and `is_there_next_piece` only tests whether the index is in range of the
peer's bitfield (`get(piece).is_some()`).  At the failing input — the peer
has piece 0 (bit set) and piece 0 is available — the session closes even
though the peer has a needed piece; the third conjunct shows the decision
ignores the bit's value altogether. -/
theorem keepAlive_closes_despite_needed_piece :
    Torrent.keepAliveCloses [true] [0] = true ∧
    Torrent.bvGet [true] 0 = some true ∧
    Torrent.keepAliveCloses [false] [0] = Torrent.keepAliveCloses [true] [0] := by decide

/-- C8 counterexample: the claim states decoding `"i-03e"` yields the
LeadingZero error; the decoder (and the source's own test) yields
NegativeZero — the sign branch runs before the leading-zero check. -/
theorem bedecode_neg_leading_zero_is_negativeZero :
    Bencode.bedecodeErr (Bencode.strBytes "i-03e") = some Bencode.BError.negativeZero ∧
    Bencode.BError.negativeZero ≠ Bencode.BError.leadingZero := by decide

/-- C8 amended: the decoder classifies `"ie"` as EmptyInteger, `"i-0e"` as
NegativeZero, `"i03e"` as LeadingZero, and `"i-03e"` as NegativeZero. -/
theorem bedecode_integer_error_classification :
    Bencode.bedecodeErr (Bencode.strBytes "ie") = some Bencode.BError.emptyInteger ∧
    Bencode.bedecodeErr (Bencode.strBytes "i-0e") = some Bencode.BError.negativeZero ∧
    Bencode.bedecodeErr (Bencode.strBytes "i03e") = some Bencode.BError.leadingZero ∧
    Bencode.bedecodeErr (Bencode.strBytes "i-03e") = some Bencode.BError.negativeZero := by
  decide

/-- C9 counterexample: the claim states a timeout during the announce write
causes a reconnect and retry.  A script whose first write fails with
`TimedOut` (and would succeed afterwards) makes `announce` surface the error
with no reconnect, instead of retrying to success. -/
theorem announce_surfaces_write_timeout :
    Tracker.announceLoop
        [⟨some Peer.IoKind.timedOut, Tracker.TrackerRead.ok 10⟩,
         ⟨none, Tracker.TrackerRead.ok 10⟩] =
      (Tracker.AnnounceResult.err Peer.IoKind.timedOut, 0) ∧
    (Tracker.AnnounceResult.err Peer.IoKind.timedOut, (0 : Nat)) ≠
      (Tracker.AnnounceResult.ok, 1) := by decide

/-- C9 amended: during `Tracker::announce`, connection-reset,
connection-aborted and permission-denied write errors reconnect and retry
while every other write error (timeout included) is surfaced; on the read
side a connection-reset reconnects and retries, and every other read error
(timeout included) is retried without reconnecting and without surfacing. -/
theorem announce_retry_policy (k : Peer.IoKind) (r : Tracker.TrackerRead)
    (rest : List Tracker.Attempt) :
    ((k = Peer.IoKind.connectionReset ∨ k = Peer.IoKind.connectionAborted ∨
        k = Peer.IoKind.permissionDenied) →
      Tracker.announceLoop (⟨some k, r⟩ :: rest) =
        ((Tracker.announceLoop rest).1, (Tracker.announceLoop rest).2 + 1)) ∧
    ((k = Peer.IoKind.timedOut ∨ k = Peer.IoKind.other) →
      Tracker.announceLoop (⟨some k, r⟩ :: rest) = (.err k, 0)) ∧
    (Tracker.announceLoop (⟨none, Tracker.TrackerRead.err Peer.IoKind.connectionReset⟩ :: rest) =
      ((Tracker.announceLoop rest).1, (Tracker.announceLoop rest).2 + 1)) ∧
    (∀ k', k' ≠ Peer.IoKind.connectionReset →
      Tracker.announceLoop (⟨none, Tracker.TrackerRead.err k'⟩ :: rest) =
        Tracker.announceLoop rest) := by
  refine ⟨?_, ?_, ?_, ?_⟩
  · rintro (rfl | rfl | rfl) <;> simp [Tracker.announceLoop]
  · rintro (rfl | rfl) <;> simp [Tracker.announceLoop]
  · simp [Tracker.announceLoop]
  · intro k' hk'
    cases k' <;> first
      | exact absurd rfl hk'
      | simp [Tracker.announceLoop]

/-- Witness for C9's amended theorem: a reset write error followed by a clean
exchange ends in success after exactly one reconnect. -/
theorem announce_retry_policy_witness :
    (Peer.IoKind.connectionReset = Peer.IoKind.connectionReset ∨
      Peer.IoKind.connectionReset = Peer.IoKind.connectionAborted ∨
      Peer.IoKind.connectionReset = Peer.IoKind.permissionDenied) ∧
    Tracker.announceLoop
        [⟨some Peer.IoKind.connectionReset, Tracker.TrackerRead.ok 1⟩,
         ⟨none, Tracker.TrackerRead.ok 1⟩] =
      (Tracker.AnnounceResult.ok, 1) :=
  ⟨Or.inl rfl,
    ((announce_retry_policy Peer.IoKind.connectionReset (Tracker.TrackerRead.ok 1)
        [⟨none, Tracker.TrackerRead.ok 1⟩]).1 (Or.inl rfl)).trans (by decide)⟩

/-- C10: `get_next_piece` scans for the smallest index that is set in the
peer's bitfield and present in the available set; when that index is 396 it
terminates the whole process with exit status 0, otherwise it removes the
index from the set and returns it, and it returns None when no index
qualifies. -/
theorem getNextPiece_selection (bitfield : List Bool) (available : List Nat) :
    Torrent.getNextPiece bitfield available =
      match Torrent.specSmallestWanted bitfield available with
      | none => .noPiece
      | some i => if i = 396 then .exitProcess 0
                  else .got i (Torrent.setRemove available i) :=
  Torrent.getNextPieceAux_eq_spec bitfield 0 available
